import Mathlib

/-!
Verification development for the raceef-feed-generator chat backend
(`src/methods/chat.ts` and its extended variant with message-status,
presence and privacy endpoints).

The database tables are embedded as Lean lists of row structures; each
HTTP handler becomes a pure state transformer on that database.  The
nondeterministic inputs of a handler (`Date.now()`, `generateRev()`,
`uuidv4()`) are passed as explicit arguments.  SQL string comparison
(`rev > cursor`, `ORDER BY rev`) is byte-wise on the UTF-8 encoding,
which coincides with lexicographic comparison of code points; it is
embedded as `charsLt` / `strLt` below.
-/

namespace Raceef

/-! ## String order -/

/-- Lexicographic strict comparison on code-point lists, matching both
SQLite BINARY collation on UTF-8 text and JavaScript string `<`. -/
def charsLt : List Char → List Char → Bool
  | [], [] => false
  | [], _ :: _ => true
  | _ :: _, [] => false
  | a :: as, b :: bs =>
    if a.toNat < b.toNat then true
    else if b.toNat < a.toNat then false
    else charsLt as bs

/-- Strict lexicographic order on strings. -/
def strLt (a b : String) : Bool :=
  charsLt a.data b.data

/-! ## Data model

One structure per table of the chat schema, one list per table in `Db`.
Nullable columns are `Option`; the SQLite integer booleans (`muted`,
`showReadReceipts`, ...) stay `Nat` 0/1 as in the rows the code reads. -/

/-- Row of `conversation`. -/
structure ConversationRow where
  id : String
  createdAt : String
  updatedAt : String
  deriving DecidableEq, Repr

/-- Row of `conversation_member`. -/
structure MemberRow where
  conversationId : String
  memberDid : String
  joinedAt : String
  lastReadRev : Option String
  muted : Nat
  status : String
  deriving DecidableEq, Repr

/-- A single entry of a message's JSON `reactions` column:
`{ value, sender: { did } }`. -/
structure Reaction where
  value : String
  senderDid : String
  deriving DecidableEq, Repr

/-- Row of `message`; the JSON `reactions` column is kept parsed. -/
structure MessageRow where
  id : String
  conversationId : String
  senderDid : String
  text : String
  rev : String
  createdAt : String
  deletedAt : Option String
  reactions : List Reaction
  deriving DecidableEq, Repr

/-- The tagged payload stored (as JSON) in a `message_event` row. -/
inductive EventPayload where
  | createMessage (messageId : String)
  | deleteMessage (messageId : String)
  | readConvo
  | addReaction (messageId value senderDid : String)
  | removeReaction (messageId value senderDid : String)
  | statusUpdate (messageId recipientDid statusValue : String)
  deriving DecidableEq, Repr

/-- Row of `message_event`. -/
structure EventRow where
  conversationId : String
  eventType : String
  payload : EventPayload
  rev : String
  createdAt : String
  deriving DecidableEq, Repr

/-- Row of `message_status`. -/
structure StatusRow where
  messageId : String
  recipientDid : String
  deliveredAt : Option String
  readAt : Option String
  deriving DecidableEq, Repr

/-- Row of `user_presence`. -/
structure PresenceRow where
  did : String
  isOnline : Nat
  lastSeenAt : String
  updatedAt : String
  deriving DecidableEq, Repr

/-- Row of `chat_privacy`. -/
structure PrivacyRow where
  did : String
  showReadReceipts : Nat
  showOnlineStatus : Nat
  showLastSeen : Nat
  deriving DecidableEq, Repr

/-- The chat database. -/
structure Db where
  conversations : List ConversationRow
  members : List MemberRow
  messages : List MessageRow
  events : List EventRow
  statuses : List StatusRow
  presence : List PresenceRow
  privacy : List PrivacyRow
  deriving DecidableEq, Repr

/-! ## GET /chat/convo/log (syncLog) -/

/-- `SELECT conversationId FROM conversation_member WHERE memberDid = me
AND status != 'left'`. -/
def syncLogConvoIds (db : Db) (me : String) : List String :=
  (db.members.filter (fun m => m.memberDid == me && m.status != "left")).map
    (fun m => m.conversationId)

/-- `rev > cursor` under the handler's `$if(!!cursor, ...)`: with no
cursor every row qualifies. -/
def cursorLt (c : Option String) (r : String) : Bool :=
  match c with
  | none => true
  | some c => strLt c r

/-- `ORDER BY rev ASC` comparison on event rows. -/
def revLe (a b : EventRow) : Prop :=
  strLt b.rev a.rev = false

instance : DecidableRel revLe := fun a b => by
  unfold revLe; infer_instance

/-- The `GET /chat/convo/log` handler: memberships with status ≠ left,
events of those conversations with `rev > cursor`, ordered ascending by
`rev`, limited to 100; the response cursor is the last returned rev, the
input cursor when the caller has conversations but no event matched, and
absent when the caller has no conversations at all.  The handler only
reads. -/
def syncLog (db : Db) (me : String) (cursor : Option String) :
    List EventRow × Option String :=
  let convoIds := syncLogConvoIds db me
  if convoIds.isEmpty then ([], none)
  else
    let evs :=
      (List.insertionSort revLe
        (db.events.filter
          (fun e => convoIds.contains e.conversationId && cursorLt cursor e.rev))).take 100
    match evs.getLast? with
    | some e => (evs, some e.rev)
    | none => (evs, cursor)

/-- Spec-side: the caller holds a non-left membership in the conversation. -/
def activeMember (db : Db) (me cid : String) : Prop :=
  ∃ m ∈ db.members, m.memberDid = me ∧ m.conversationId = cid ∧ m.status ≠ "left"

instance (db : Db) (me cid : String) : Decidable (activeMember db me cid) := by
  unfold activeMember; infer_instance

/-- Spec-side: an event row a poll from cursor `c` must cover — it lives
in a conversation where the caller holds a non-left membership and its
revision is strictly above the cursor. -/
def qualifies (db : Db) (me : String) (c : Option String) (e : EventRow) : Prop :=
  activeMember db me e.conversationId ∧ cursorLt c e.rev = true

/-! ## Membership lifecycle: POST /chat/convo/:id/accept and /leave -/

/-- `POST /chat/convo/:id/accept`: `UPDATE conversation_member SET
status = 'accepted' WHERE conversationId = :id AND memberDid = me` —
no condition on the current status. -/
def acceptConvo (db : Db) (me convoId : String) : Db :=
  { db with
    members := db.members.map (fun m =>
      if m.conversationId == convoId && m.memberDid == me then
        { m with status := "accepted" }
      else m) }

/-- `POST /chat/convo/:id/leave`: `UPDATE conversation_member SET
status = 'left' WHERE conversationId = :id AND memberDid = me`. -/
def leaveConvo (db : Db) (me convoId : String) : Db :=
  { db with
    members := db.members.map (fun m =>
      if m.conversationId == convoId && m.memberDid == me then
        { m with status := "left" }
      else m) }

/-! ## POST /chat/convo/:id/read (conversation-scoped markRead) -/

/-- `SELECT rev FROM message WHERE conversationId = :id ORDER BY rev
DESC LIMIT 1`: the maximal revision among the conversation's messages. -/
def latestMessageRev (db : Db) (convoId : String) : Option String :=
  ((db.messages.filter (fun m => m.conversationId == convoId)).map
    (fun m => m.rev)).foldl
    (fun acc r =>
      match acc with
      | none => some r
      | some a => if strLt a r then some r else some a) none

/-- `POST /chat/convo/:id/read`: when the conversation has a latest
message, set the caller's `lastReadRev` (update matching rows, with no
membership validation) and append a `logReadConvo` event; otherwise do
nothing.  `rev` stands for the handler's `generateRev()` and `ts` for
`now()`. -/
def markReadConvo (db : Db) (me convoId rev ts : String) : Db :=
  match latestMessageRev db convoId with
  | none => db
  | some lrev =>
    { db with
      members := db.members.map (fun m =>
        if m.conversationId == convoId && m.memberDid == me then
          { m with lastReadRev := some lrev }
        else m),
      events := db.events ++ [⟨convoId, "read", EventPayload.readConvo, rev, ts⟩] }

/-! ## POST /chat/convo/getOrCreate -/

/-- Accumulator for `dedupFirst`. -/
def dedupAux (seen : List String) : List String → List String
  | [] => []
  | a :: rest =>
    if seen.contains a then dedupAux seen rest
    else a :: dedupAux (a :: seen) rest

/-- `Array.from(new Set([userDid, ...memberDids]))`: deduplication
keeping first occurrences in order. -/
def dedupFirst (l : List String) : List String :=
  dedupAux [] l

/-- The `cm1`/`cm2` self-join: conversation ids where `a` holds a
non-left membership, kept when `b` also holds a non-left membership. -/
def bothMemberConvos (db : Db) (a b : String) : List String :=
  ((db.members.filter (fun m => m.memberDid == a && m.status != "left")).map
    (fun m => m.conversationId)).filter
    (fun cid => db.members.any
      (fun m => m.conversationId == cid && m.memberDid == b && m.status != "left"))

/-- `COUNT(memberDid) FROM conversation_member WHERE conversationId =
cid AND status != 'left'`. -/
def nonLeftCount (db : Db) (cid : String) : Nat :=
  (db.members.filter (fun m => m.conversationId == cid && m.status != "left")).length

/-- `POST /chat/convo/getOrCreate`: for exactly two deduplicated
members, return the first existing conversation where both hold
non-left memberships and the non-left member count is exactly two
(served through an internal GET, which does not mutate); otherwise
insert one conversation plus one membership per member — `accepted` for
the caller, `request` for everyone else.  `newId` stands for `uuidv4()`
and `ts` for `now()`. -/
def getOrCreate (db : Db) (me : String) (memberDids : List String) (newId ts : String) :
    Db × String :=
  let allMembers := dedupFirst (me :: memberDids)
  let existing : Option String :=
    match allMembers with
    | [a, b] => (bothMemberConvos db a b).find? (fun cid => nonLeftCount db cid == 2)
    | _ => none
  match existing with
  | some cid => (db, cid)
  | none =>
    ({ db with
        conversations := db.conversations ++ [⟨newId, ts, ts⟩],
        members := db.members ++ allMembers.map (fun d =>
          ⟨newId, d, ts, none, 0, if d == me then "accepted" else "request"⟩) },
      newId)

/-! ## POST /chat/convo/:convoId/message/:messageId/reaction -/

/-- Outcome of the add-reaction handler. -/
inductive ReactionResult where
  | notMember
  | msgNotFound
  | alreadyExists
  | limitExceeded
  | added
  deriving DecidableEq, Repr

/-- `reactions.filter(r => r.sender.did === did).length`. -/
def reactionCount (l : List Reaction) (did : String) : Nat :=
  (l.filter (fun r => r.senderDid == did)).length

/-- `POST /chat/convo/:convoId/message/:messageId/reaction`: membership
check (status ≠ left), message lookup (same conversation, not deleted),
no-op when the (value, caller) pair already exists, rejection when the
caller already holds 5 reactions on the message, otherwise push the
reaction, store it on every message row with this id, and append a
`logAddReaction` event.  `rev` stands for `generateRev()` and `ts` for
`now()`. -/
def addReaction (db : Db) (me convoId messageId value rev ts : String) :
    Db × ReactionResult :=
  match db.members.find? (fun m =>
      m.conversationId == convoId && m.memberDid == me && m.status != "left") with
  | none => (db, ReactionResult.notMember)
  | some _ =>
    match db.messages.find? (fun m =>
        m.id == messageId && m.conversationId == convoId && m.deletedAt == none) with
    | none => (db, ReactionResult.msgNotFound)
    | some msg =>
      if msg.reactions.any (fun r => r.senderDid == me && r.value == value) then
        (db, ReactionResult.alreadyExists)
      else if 5 ≤ reactionCount msg.reactions me then
        (db, ReactionResult.limitExceeded)
      else
        ({ db with
            messages := db.messages.map (fun m =>
              if m.id == messageId then
                { m with reactions := msg.reactions ++ [⟨value, me⟩] }
              else m),
            events := db.events ++
              [⟨convoId, "reaction", EventPayload.addReaction messageId value me, rev, ts⟩] },
          ReactionResult.added)

/-! ## POST /chat/convo/:convoId/message/:messageId/read
(message-scoped markRead, extended chat module) -/

/-- Outcome of the message-scoped mark-read handler. -/
inductive MsgReadResult where
  | privacyDisabled
  | notMember
  | msgNotFound
  | ownMessage
  | ok
  deriving DecidableEq, Repr

/-- `POST /chat/convo/:convoId/message/:messageId/read`: short-circuits
to a successful no-op when the caller's privacy row disables read
receipts; then membership check, message lookup, own-message rejection;
then upserts the (message, caller) status row — on conflict keeping a
previously recorded `deliveredAt` (`existingStatus?.deliveredAt ||
timestamp`) and setting `readAt` — and appends a status event.  `rev`
stands for `generateRev()` and `ts` for `now()`. -/
def markReadMsg (db : Db) (me convoId messageId rev ts : String) :
    Db × MsgReadResult :=
  if (match db.privacy.find? (fun p => p.did == me) with
      | some p => p.showReadReceipts == 0
      | none => false) then
    (db, MsgReadResult.privacyDisabled)
  else
    match db.members.find? (fun m =>
        m.conversationId == convoId && m.memberDid == me && m.status != "left") with
    | none => (db, MsgReadResult.notMember)
    | some _ =>
      match db.messages.find? (fun m =>
          m.id == messageId && m.conversationId == convoId) with
      | none => (db, MsgReadResult.msgNotFound)
      | some msg =>
        if msg.senderDid == me then (db, MsgReadResult.ownMessage)
        else
          ({ db with
              statuses :=
                match db.statuses.find? (fun s =>
                    s.messageId == messageId && s.recipientDid == me) with
                | some ex =>
                  db.statuses.map (fun s =>
                    if s.messageId == messageId && s.recipientDid == me then
                      { s with
                        deliveredAt := some (ex.deliveredAt.getD ts),
                        readAt := some ts }
                    else s)
                | none => db.statuses ++ [⟨messageId, me, some ts, some ts⟩],
              events := db.events ++
                [⟨convoId, "status", EventPayload.statusUpdate messageId me "read", rev, ts⟩] },
            MsgReadResult.ok)

/-! ## POST /chat/presence/batch -/

/-- One element of the batch-presence response. -/
structure PresenceView where
  did : String
  isOnline : Bool
  lastSeenAt : Option String
  privacyBlocked : Bool
  deriving DecidableEq, Repr

/-- `POST /chat/presence/batch`: `none` models the 400 response for an
empty list; the batch is capped at 100.  A requester whose own privacy
row disables sharing online status gets every target reported offline
with null last-seen; otherwise each target is resolved from
`user_presence` left-joined with `chat_privacy`, online visibility and
last-seen visibility each gated by the target's own settings (absent
row ⇒ shared). -/
def batchPresence (db : Db) (me : String) (dids : List String) :
    Option (List PresenceView) :=
  if dids.isEmpty then none
  else
    let limitedDids := dids.take 100
    if (match db.privacy.find? (fun p => p.did == me) with
        | some p => p.showOnlineStatus == 0
        | none => false) then
      some (limitedDids.map (fun did => ⟨did, false, none, true⟩))
    else
      some (limitedDids.map (fun did =>
        match db.presence.find? (fun p => p.did == did) with
        | none => ⟨did, false, none, false⟩
        | some p =>
          let priv := db.privacy.find? (fun q => q.did == did)
          let showOnline :=
            match priv with
            | none => true
            | some q => q.showOnlineStatus == 1
          let showLastSeen :=
            match priv with
            | none => true
            | some q => q.showLastSeen == 1
          ⟨did, if showOnline then p.isOnline == 1 else false,
            if showLastSeen then some p.lastSeenAt else none, false⟩))

/-! ## generateRev -/

/-- Digit characters `0`–`9`, `a`–`z` as produced by JS
`Number.prototype.toString(36)` (and, for values below 16, by
`Buffer.toString('hex')`). -/
def digitChar36 (d : Nat) : Char :=
  if d < 10 then Char.ofNat (48 + d) else Char.ofNat (87 + d)

/-- Fuel-indexed big-endian base-36 digit expansion. -/
def toBase36Go : Nat → Nat → List Char
  | 0, _ => []
  | fuel + 1, n =>
    if n < 36 then [digitChar36 n]
    else toBase36Go fuel (n / 36) ++ [digitChar36 (n % 36)]

/-- JS `Date.now().toString(36)`. -/
def toBase36 (n : Nat) : List Char :=
  toBase36Go (n + 1) n

/-- `crypto.randomBytes(4).toString('hex')` on the 32-bit value `v`:
exactly `w = 8` hex digits, zero padded, big-endian. -/
def toHexFixed : Nat → Nat → List Char
  | 0, _ => []
  | w + 1, v => toHexFixed w (v / 16) ++ [digitChar36 (v % 16)]

/-- `generateRev()` with the nondeterminism explicit: `ts` is
`Date.now()` and `r` the 4-byte random draw. -/
def generateRev (ts r : Nat) : List Char :=
  toBase36 ts ++ toHexFixed 8 r

/-! ## Concrete databases for counterexamples and witnesses -/

/-- The caller's only membership in `c1` has status `left`; the
conversation has one logged event. -/
def cexSyncDb : Db where
  conversations := [⟨"c1", "t0", "t1"⟩]
  members := [⟨"c1", "did:me", "t0", none, 0, "left"⟩]
  messages := []
  events := [⟨"c1", "message", EventPayload.createMessage "m1", "r1", "t1"⟩]
  statuses := []
  presence := []
  privacy := []

/-- The caller holds an accepted membership in `c1`, which has one
logged event. -/
def witSyncDb : Db where
  conversations := [⟨"c1", "t0", "t1"⟩]
  members := [⟨"c1", "did:me", "t0", none, 0, "accepted"⟩]
  messages := []
  events := [⟨"c1", "message", EventPayload.createMessage "m1", "r1", "t1"⟩]
  statuses := []
  presence := []
  privacy := []

/-- A membership that has already left its conversation. -/
def cexLeftDb : Db where
  conversations := [⟨"c1", "t0", "t0"⟩]
  members := [⟨"c1", "did:alice", "t0", none, 0, "left"⟩]
  messages := []
  events := []
  statuses := []
  presence := []
  privacy := []

/-- The caller `did:out` has left `c1`; the conversation holds one
message from someone else. -/
def cexReadDb : Db where
  conversations := [⟨"c1", "t0", "t1"⟩]
  members := [⟨"c1", "did:out", "t0", none, 0, "left"⟩]
  messages := [⟨"m1", "c1", "did:other", "hi", "r1", "t1", none, []⟩]
  events := []
  statuses := []
  presence := []
  privacy := []

/-- An empty database: no conversation exists yet between anyone. -/
def emptyDb : Db where
  conversations := []
  members := []
  messages := []
  events := []
  statuses := []
  presence := []
  privacy := []

/-- `did:a` and `did:b` share `c1`, both non-left, nobody else. -/
def witPairDb : Db where
  conversations := [⟨"c1", "t0", "t0"⟩]
  members := [⟨"c1", "did:a", "t0", none, 0, "accepted"⟩,
              ⟨"c1", "did:b", "t0", none, 0, "request"⟩]
  messages := []
  events := []
  statuses := []
  presence := []
  privacy := []

/-- `did:b`'s message `m1` in `c1` already carries five reactions from
`did:a`. -/
def witCapDb : Db where
  conversations := [⟨"c1", "t0", "t1"⟩]
  members := [⟨"c1", "did:a", "t0", none, 0, "accepted"⟩,
              ⟨"c1", "did:b", "t0", none, 0, "accepted"⟩]
  messages := [⟨"m1", "c1", "did:b", "hi", "r1", "t1", none,
    [⟨"e1", "did:a"⟩, ⟨"e2", "did:a"⟩, ⟨"e3", "did:a"⟩, ⟨"e4", "did:a"⟩,
     ⟨"e5", "did:a"⟩]⟩]
  events := []
  statuses := []
  presence := []
  privacy := []

/-- `did:b`'s message `m1` in `c1` carries no reactions yet. -/
def witReactDb : Db where
  conversations := [⟨"c1", "t0", "t1"⟩]
  members := [⟨"c1", "did:a", "t0", none, 0, "accepted"⟩,
              ⟨"c1", "did:b", "t0", none, 0, "accepted"⟩]
  messages := [⟨"m1", "c1", "did:b", "hi", "r1", "t1", none, []⟩]
  events := []
  statuses := []
  presence := []
  privacy := []

/-- `did:a` has received `did:b`'s message `m1` and holds a status row
with a recorded delivered time but no read time. -/
def witStatusDb : Db where
  conversations := [⟨"c1", "t0", "t1"⟩]
  members := [⟨"c1", "did:a", "t0", none, 0, "accepted"⟩,
              ⟨"c1", "did:b", "t0", none, 0, "accepted"⟩]
  messages := [⟨"m1", "c1", "did:b", "hi", "r1", "t1", none, []⟩]
  events := []
  statuses := [⟨"m1", "did:a", some "t2", none⟩]
  presence := []
  privacy := []

/-- Same layout as `witStatusDb` but `did:a` has read receipts disabled. -/
def witPrivacyDb : Db where
  conversations := [⟨"c1", "t0", "t1"⟩]
  members := [⟨"c1", "did:a", "t0", none, 0, "accepted"⟩,
              ⟨"c1", "did:b", "t0", none, 0, "accepted"⟩]
  messages := [⟨"m1", "c1", "did:b", "hi", "r1", "t1", none, []⟩]
  events := []
  statuses := []
  presence := []
  privacy := [⟨"did:a", 0, 1, 1⟩]

/-- `did:a` hides online status; `did:b` is online and fully shared. -/
def witPresenceDb : Db where
  conversations := []
  members := []
  messages := []
  events := []
  statuses := []
  presence := [⟨"did:b", 1, "t5", "t5"⟩]
  privacy := [⟨"did:a", 1, 0, 1⟩, ⟨"did:c", 1, 0, 1⟩]

/-! ## Properties of the string order -/

theorem charsLt_irrefl : ∀ l : List Char, charsLt l l = false
  | [] => rfl
  | a :: as => by
    simp [charsLt, charsLt_irrefl as]

theorem charsLt_asymm : ∀ {l₁ l₂ : List Char},
    charsLt l₁ l₂ = true → charsLt l₂ l₁ = false
  | [], [], h => by simp [charsLt] at h
  | [], _ :: _, _ => rfl
  | _ :: _, [], h => by simp [charsLt] at h
  | a :: as, b :: bs, h => by
    by_cases hab : a.toNat < b.toNat
    · simp [charsLt, hab, Nat.lt_asymm hab]
    · by_cases hba : b.toNat < a.toNat
      · simp [charsLt, hab, hba] at h
      · simp [charsLt, hab, hba] at h ⊢
        exact charsLt_asymm h

theorem charsLt_trans : ∀ {l₁ l₂ l₃ : List Char},
    charsLt l₁ l₂ = true → charsLt l₂ l₃ = true → charsLt l₁ l₃ = true
  | [], [], _, h, _ => by simp [charsLt] at h
  | [], _ :: _, [], _, h => by simp [charsLt] at h
  | [], _ :: _, _ :: _, _, _ => rfl
  | _ :: _, [], _, h, _ => by simp [charsLt] at h
  | _ :: _, _ :: _, [], _, h => by simp [charsLt] at h
  | a :: as, b :: bs, c :: cs, h₁, h₂ => by
    by_cases hab : a.toNat < b.toNat
    · by_cases hbc : b.toNat < c.toNat
      · simp [charsLt, Nat.lt_trans hab hbc]
      · by_cases hcb : c.toNat < b.toNat
        · simp [charsLt, hbc, hcb] at h₂
        · have hbc' : b.toNat = c.toNat :=
            Nat.le_antisymm (Nat.le_of_not_lt hcb) (Nat.le_of_not_lt hbc)
          simp [charsLt, hbc' ▸ hab]
    · by_cases hba : b.toNat < a.toNat
      · simp [charsLt, hab, hba] at h₁
      · have hab' : a.toNat = b.toNat :=
          Nat.le_antisymm (Nat.le_of_not_lt hba) (Nat.le_of_not_lt hab)
        simp [charsLt, hab, hba] at h₁
        by_cases hbc : b.toNat < c.toNat
        · simp [charsLt, hab' ▸ hbc]
        · by_cases hcb : c.toNat < b.toNat
          · simp [charsLt, hbc, hcb] at h₂
          · simp [charsLt, hbc, hcb] at h₂
            simp [charsLt, hab' ▸ hbc, hab' ▸ hcb, charsLt_trans h₁ h₂]

theorem charsLt_connex : ∀ {l₁ l₂ : List Char},
    charsLt l₁ l₂ = false → charsLt l₂ l₁ = false → l₁ = l₂
  | [], [], _, _ => rfl
  | [], _ :: _, h, _ => by simp [charsLt] at h
  | _ :: _, [], _, h => by simp [charsLt] at h
  | a :: as, b :: bs, h₁, h₂ => by
    by_cases hab : a.toNat < b.toNat
    · simp [charsLt, hab] at h₁
    · by_cases hba : b.toNat < a.toNat
      · simp [charsLt, hba, hab] at h₂
      · have hab' : a.toNat = b.toNat :=
          Nat.le_antisymm (Nat.le_of_not_lt hba) (Nat.le_of_not_lt hab)
        have hc : a = b := Char.ext (UInt32.ext hab')
        simp [charsLt, hab, hba] at h₁ h₂
        simp [hc, charsLt_connex h₁ h₂]

theorem strLt_irrefl (s : String) : strLt s s = false :=
  charsLt_irrefl s.data

theorem strLt_asymm {a b : String} (h : strLt a b = true) : strLt b a = false :=
  charsLt_asymm h

theorem strLt_trans {a b c : String} (h₁ : strLt a b = true) (h₂ : strLt b c = true) :
    strLt a c = true :=
  charsLt_trans h₁ h₂

theorem strLt_connex {a b : String} (h₁ : strLt a b = false) (h₂ : strLt b a = false) :
    a = b := by
  cases a; cases b
  exact congrArg String.mk (charsLt_connex h₁ h₂)

instance : IsTotal EventRow revLe where
  total a b := by
    unfold revLe
    by_cases h : strLt b.rev a.rev = true
    · exact Or.inr (strLt_asymm h)
    · exact Or.inl (Bool.eq_false_iff.mpr h)

instance : IsTrans EventRow revLe where
  trans a b c hab hbc := by
    unfold revLe at *
    by_cases h : strLt c.rev a.rev = true
    · by_cases hba : strLt b.rev a.rev = true
      · rw [hba] at hab; cases hab
      · by_cases hab' : strLt a.rev b.rev = true
        · have : strLt c.rev b.rev = true := strLt_trans h hab'
          rw [this] at hbc; cases hbc
        · have : a.rev = b.rev :=
            strLt_connex (Bool.eq_false_iff.mpr hab') (Bool.eq_false_iff.mpr hba)
          rw [this] at h; rw [h] at hbc; cases hbc
    · exact Bool.eq_false_iff.mpr h

instance : IsRefl EventRow revLe where
  refl a := strLt_irrefl a.rev

/-! ## Claim C1: syncLog -/

theorem mem_syncLogConvoIds {db : Db} {me cid : String} :
    cid ∈ syncLogConvoIds db me ↔ activeMember db me cid := by
  simp only [syncLogConvoIds, activeMember, List.mem_map, List.mem_filter]
  constructor
  · rintro ⟨m, ⟨hm, hp⟩, rfl⟩
    simp only [Bool.and_eq_true, beq_iff_eq, bne_iff_ne, ne_eq] at hp
    exact ⟨m, hm, hp.1, rfl, hp.2⟩
  · rintro ⟨m, hm, h1, h2, h3⟩
    exact ⟨m, ⟨hm, by simp [h1, h2, h3]⟩, h2⟩

theorem contains_syncLogConvoIds {db : Db} {me cid : String} :
    ((syncLogConvoIds db me).contains cid = true) ↔ activeMember db me cid := by
  rw [List.contains_iff_exists_mem_beq]
  constructor
  · rintro ⟨x, hx, hbeq⟩
    rw [show cid = x from beq_iff_eq.mp hbeq] at *
    exact mem_syncLogConvoIds.mp hx
  · intro h
    exact ⟨cid, mem_syncLogConvoIds.mpr h, beq_iff_eq.mpr rfl⟩

/-- In a `Sorted` list every element is related to the last one. -/
theorem sorted_rel_getLast {r : EventRow → EventRow → Prop} [IsRefl EventRow r] :
    ∀ {l : List EventRow}, l.Sorted r → ∀ (hne : l ≠ []) (e : EventRow), e ∈ l →
      r e (l.getLast hne)
  | [], _, hne, _, _ => absurd rfl hne
  | [a], _, _, e, he => by
    simp only [List.mem_singleton] at he
    subst he
    exact IsRefl.refl e
  | a :: b :: t, hs, _, e, he => by
    have hgl : (a :: b :: t).getLast (by simp) = (b :: t).getLast (by simp) := by
      simp [List.getLast]
    rw [hgl]
    rcases List.mem_cons.mp he with rfl | he'
    · exact (List.pairwise_cons.mp hs).1 _ (List.getLast_mem _)
    · exact sorted_rel_getLast (List.pairwise_cons.mp hs).2 (by simp) e he'

/-- C1 (amended): `syncLog` returns, sorted ascending by revision and
truncated to 100, event rows of exactly the conversations where the
caller holds a non-left membership with revision strictly above the
cursor; the returned cursor is the last included revision, or the input
cursor when the caller has a non-left membership but no entry qualifies,
or empty when the caller has no non-left membership at all; assuming
globally unique revisions, resuming from the returned cursor skips
nothing and repeats nothing. -/
theorem syncLog_amended_correct (db : Db) (me : String) (c : Option String)
    (hnodup : (db.events.map (fun e => e.rev)).Nodup) :
    ((syncLog db me c).1.Sorted revLe)
    ∧ (syncLog db me c).1.length ≤ 100
    ∧ (∀ e ∈ (syncLog db me c).1, e ∈ db.events ∧ qualifies db me c e)
    ∧ ((¬ ∃ cid, activeMember db me cid) → syncLog db me c = ([], none))
    ∧ ((∃ cid, activeMember db me cid) → (syncLog db me c).1 = [] →
        (syncLog db me c).2 = c)
    ∧ (∀ hne : (syncLog db me c).1 ≠ [],
        (syncLog db me c).2 = some (((syncLog db me c).1.getLast hne).rev))
    ∧ (∀ e ∈ (syncLog db me c).1, cursorLt (syncLog db me c).2 e.rev = false)
    ∧ (∀ e ∈ db.events, qualifies db me c e →
        e ∈ (syncLog db me c).1 ∨ qualifies db me (syncLog db me c).2 e) := by
  cases hemp : (syncLogConvoIds db me).isEmpty
  case true =>
    have hnoact : ¬ ∃ cid, activeMember db me cid := by
      rintro ⟨cid, hact⟩
      have hmem := mem_syncLogConvoIds.mpr hact
      rw [List.isEmpty_iff] at hemp
      rw [hemp] at hmem
      exact absurd hmem (List.not_mem_nil cid)
    have hres : syncLog db me c = ([], none) := by
      simp [syncLog, hemp]
    refine ⟨?_, ?_, ?_, ?_, ?_, ?_, ?_, ?_⟩ <;> rw [hres]
    · simp
    · simp
    · simp
    · intro _; rfl
    · intro hex; exact absurd hex hnoact
    · intro hne; exact absurd rfl hne
    · simp
    · intro e _ hq
      exact absurd ⟨e.conversationId, hq.1⟩ hnoact
  case false =>
    have hflt :
        (syncLog db me c).1 =
          (List.insertionSort revLe
            (db.events.filter
              (fun e => (syncLogConvoIds db me).contains e.conversationId &&
                cursorLt c e.rev))).take 100 := by
      simp only [syncLog, hemp, Bool.false_eq_true, if_false]
      cases h :
          ((List.insertionSort revLe
            (db.events.filter
              (fun e => (syncLogConvoIds db me).contains e.conversationId &&
                cursorLt c e.rev))).take 100).getLast? <;> simp [h]
    have hsnd :
        (syncLog db me c).2 =
          match (syncLog db me c).1.getLast? with
          | some e => some e.rev
          | none => c := by
      rw [hflt]
      simp only [syncLog, hemp, Bool.false_eq_true, if_false]
      cases h :
          ((List.insertionSort revLe
            (db.events.filter
              (fun e => (syncLogConvoIds db me).contains e.conversationId &&
                cursorLt c e.rev))).take 100).getLast? <;> simp [h]
    have hsorted : (syncLog db me c).1.Sorted revLe := by
      rw [hflt]
      exact (List.sorted_insertionSort revLe _).sublist (List.take_sublist _ _)
    have hmemchar : ∀ e ∈ (syncLog db me c).1, e ∈ db.events ∧ qualifies db me c e := by
      intro e he
      rw [hflt] at he
      have he' := (List.perm_insertionSort revLe _).subset (List.take_subset _ _ he)
      obtain ⟨hev, hp⟩ := List.mem_filter.mp he'
      rw [Bool.and_eq_true] at hp
      exact ⟨hev, contains_syncLogConvoIds.mp hp.1, hp.2⟩
    refine ⟨hsorted, ?_, hmemchar, ?_, ?_, ?_, ?_, ?_⟩
    · rw [hflt]; exact List.length_take_le _ _
    · intro hno
      rw [List.isEmpty_eq_false] at hemp
      obtain ⟨cid, hcid⟩ := List.exists_mem_of_ne_nil _ hemp
      exact absurd ⟨cid, mem_syncLogConvoIds.mp hcid⟩ hno
    · intro _ hnil
      rw [hsnd, hnil]
      rfl
    · intro hne
      rw [hsnd, List.getLast?_eq_getLast _ hne]
    · intro e he
      have hne : (syncLog db me c).1 ≠ [] := List.ne_nil_of_mem he
      have hlast := sorted_rel_getLast hsorted hne e he
      rw [hsnd, List.getLast?_eq_getLast _ hne]
      exact hlast
    · intro e hev hq
      by_cases hin : e ∈ (syncLog db me c).1
      · exact Or.inl hin
      · refine Or.inr ?_
        have hef : e ∈ db.events.filter
            (fun e => (syncLogConvoIds db me).contains e.conversationId &&
              cursorLt c e.rev) := by
          rw [List.mem_filter]
          exact ⟨hev, by
            rw [Bool.and_eq_true]
            exact ⟨contains_syncLogConvoIds.mpr hq.1, hq.2⟩⟩
        have hes : e ∈ List.insertionSort revLe
            (db.events.filter
              (fun e => (syncLogConvoIds db me).contains e.conversationId &&
                cursorLt c e.rev)) :=
          (List.perm_insertionSort revLe _).mem_iff.mpr hef
        have hsplit := List.take_append_drop 100
          (List.insertionSort revLe
            (db.events.filter
              (fun e => (syncLogConvoIds db me).contains e.conversationId &&
                cursorLt c e.rev)))
        have hed : e ∈ (List.insertionSort revLe
            (db.events.filter
              (fun e => (syncLogConvoIds db me).contains e.conversationId &&
                cursorLt c e.rev))).drop 100 := by
          rcases List.mem_append.mp (by rw [hsplit]; exact hes) with h | h
          · exact absurd (hflt ▸ h) hin
          · exact h
        have hne : (syncLog db me c).1 ≠ [] := by
          intro hnil
          rw [hflt] at hnil
          rcases List.take_eq_nil_iff.mp hnil with h | h
          · exact absurd h (by norm_num)
          · rw [h] at hed; simp at hed
        have hlastmem : (syncLog db me c).1.getLast hne ∈ (syncLog db me c).1 :=
          List.getLast_mem hne
        have hcross : revLe ((syncLog db me c).1.getLast hne) e := by
          refine (List.sorted_insertionSort revLe
            (db.events.filter
              (fun e => (syncLogConvoIds db me).contains e.conversationId &&
                cursorLt c e.rev))).rel_of_mem_take_of_mem_drop ?_ hed
          rw [← hflt]
          exact hlastmem
        have hlev := hmemchar _ hlastmem
        have hneq : ((syncLog db me c).1.getLast hne).rev ≠ e.rev := by
          intro heq
          have := List.inj_on_of_nodup_map hnodup hlev.1 hev heq
          exact hin (this ▸ hlastmem)
        have hstrict : strLt ((syncLog db me c).1.getLast hne).rev e.rev = true := by
          by_cases h : strLt ((syncLog db me c).1.getLast hne).rev e.rev = true
          · exact h
          · exact absurd (strLt_connex (Bool.eq_false_iff.mpr h) hcross) hneq
        refine ⟨hq.1, ?_⟩
        rw [hsnd, List.getLast?_eq_getLast _ hne]
        exact hstrict

/-- C1 counterexample: a caller with no non-left membership and a
non-empty input cursor gets `logs = []` with an empty response cursor,
not the input cursor the claim demands for the no-qualifying-entries
case. -/
theorem syncLog_claim_cex :
    (¬ ∃ cid, activeMember cexSyncDb "did:me" cid)
    ∧ (syncLog cexSyncDb "did:me" (some "a")).1 = []
    ∧ (syncLog cexSyncDb "did:me" (some "a")).2 = none
    ∧ (some "a" : Option String) ≠ none := by
  refine ⟨?_, rfl, rfl, by simp⟩
  rintro ⟨cid, m, hm, -, -, h3⟩
  rw [show cexSyncDb.members = [⟨"c1", "did:me", "t0", none, 0, "left"⟩] from rfl] at hm
  rw [List.mem_singleton] at hm
  subst hm
  exact h3 rfl

/-- C1 witness: the amended theorem applied to a one-event database. -/
theorem syncLog_amended_witness :
    ((witSyncDb.events.map (fun e => e.rev)).Nodup)
    ∧ (((syncLog witSyncDb "did:me" none).1.Sorted revLe)
      ∧ (syncLog witSyncDb "did:me" none).1.length ≤ 100
      ∧ (∀ e ∈ (syncLog witSyncDb "did:me" none).1,
          e ∈ witSyncDb.events ∧ qualifies witSyncDb "did:me" none e)
      ∧ ((¬ ∃ cid, activeMember witSyncDb "did:me" cid) →
          syncLog witSyncDb "did:me" none = ([], none))
      ∧ ((∃ cid, activeMember witSyncDb "did:me" cid) →
          (syncLog witSyncDb "did:me" none).1 = [] →
          (syncLog witSyncDb "did:me" none).2 = none)
      ∧ (∀ hne : (syncLog witSyncDb "did:me" none).1 ≠ [],
          (syncLog witSyncDb "did:me" none).2 =
            some (((syncLog witSyncDb "did:me" none).1.getLast hne).rev))
      ∧ (∀ e ∈ (syncLog witSyncDb "did:me" none).1,
          cursorLt (syncLog witSyncDb "did:me" none).2 e.rev = false)
      ∧ (∀ e ∈ witSyncDb.events, qualifies witSyncDb "did:me" none e →
          e ∈ (syncLog witSyncDb "did:me" none).1 ∨
            qualifies witSyncDb "did:me" (syncLog witSyncDb "did:me" none).2 e)) :=
  ⟨by decide, syncLog_amended_correct witSyncDb "did:me" none (by decide)⟩

/-! ## Claim C2: membership state machine -/

/-- C2 (code bug): the accept handler runs `UPDATE conversation_member
SET status = 'accepted'` filtered only on the key, with no condition on
the current status, so a membership whose status is `left` transitions
to `accepted` — `left` is not terminal on the accept path. -/
theorem accept_from_left_bug :
    (cexLeftDb.members.map (fun m => m.status) = ["left"])
    ∧ ((acceptConvo cexLeftDb "did:alice" "c1").members.map (fun m => m.status) =
        ["accepted"]) :=
  ⟨rfl, rfl⟩

/-! ## Claim C3: conversation-scoped markRead without membership -/

/-- C3 counterexample: `did:out` has a `left` membership (hence no
active membership) in `c1`, yet its markRead call appends a read event
and rewrites its membership row. -/
theorem markReadConvo_nonmember_cex :
    (¬ activeMember cexReadDb "did:out" "c1")
    ∧ (markReadConvo cexReadDb "did:out" "c1" "r2" "t2").events.length =
        cexReadDb.events.length + 1
    ∧ (markReadConvo cexReadDb "did:out" "c1" "r2" "t2").members ≠ cexReadDb.members := by
  refine ⟨by decide, rfl, by decide⟩

/-- C3 (amended): conversation-scoped markRead performs no membership
validation.  With no message in the conversation it mutates nothing;
otherwise it appends a `logReadConvo` event regardless of the caller's
membership, updates `lastReadRev` on whatever membership rows match the
caller (including rows with status `left`), leaves the membership table
unchanged exactly when the caller has no row in the conversation, and
never touches the message table. -/
theorem markReadConvo_amended (db : Db) (me convoId rev ts : String) :
    (latestMessageRev db convoId = none → markReadConvo db me convoId rev ts = db)
    ∧ (∀ lrev, latestMessageRev db convoId = some lrev →
        (markReadConvo db me convoId rev ts).events =
          db.events ++ [⟨convoId, "read", EventPayload.readConvo, rev, ts⟩]
        ∧ ((∀ m ∈ db.members, ¬(m.conversationId = convoId ∧ m.memberDid = me)) →
            (markReadConvo db me convoId rev ts).members = db.members)
        ∧ (markReadConvo db me convoId rev ts).messages = db.messages) := by
  constructor
  · intro hnone
    simp [markReadConvo, hnone]
  · intro lrev hsome
    refine ⟨?_, ?_, ?_⟩
    · simp [markReadConvo, hsome]
    · intro hno
      simp only [markReadConvo, hsome]
      have hpt : ∀ m ∈ db.members,
          (if m.conversationId == convoId && m.memberDid == me then
            { m with lastReadRev := some lrev } else m) = m := by
        intro m hm
        rw [if_neg]
        intro hc
        rw [Bool.and_eq_true, beq_iff_eq, beq_iff_eq] at hc
        exact hno m hm ⟨hc.1, hc.2⟩
      rw [List.map_congr_left hpt]
      exact List.map_id' db.members
    · simp [markReadConvo, hsome]

/-- C3 witness: the amended theorem applied to `cexReadDb`. -/
theorem markReadConvo_amended_witness :
    (latestMessageRev cexReadDb "c1" = some "r1")
    ∧ ((markReadConvo cexReadDb "did:out" "c1" "r2" "t2").events =
        cexReadDb.events ++ [⟨"c1", "read", EventPayload.readConvo, "r2", "t2"⟩]) :=
  ⟨rfl, ((markReadConvo_amended cexReadDb "did:out" "c1" "r2" "t2").2 "r1" rfl).1⟩

/-! ## Claim C4: getOrCreate for direct conversations -/

theorem mem_bothMemberConvos {db : Db} {a b cid : String} :
    cid ∈ bothMemberConvos db a b ↔ activeMember db a cid ∧ activeMember db b cid := by
  simp only [bothMemberConvos, activeMember, List.mem_filter, List.mem_map,
    List.any_eq_true, Bool.and_eq_true, beq_iff_eq, bne_iff_ne, ne_eq]
  constructor
  · rintro ⟨⟨m, ⟨hm, hma, hms⟩, rfl⟩, mb, hmb, ⟨hbc, hbd⟩, hbs⟩
    exact ⟨⟨m, hm, hma, rfl, hms⟩, ⟨mb, hmb, hbd, hbc, hbs⟩⟩
  · rintro ⟨⟨ma, hma, h1, h2, h3⟩, ⟨mb, hmb, g1, g2, g3⟩⟩
    exact ⟨⟨ma, ⟨hma, h1, h3⟩, h2⟩, mb, hmb, ⟨g2, g1⟩, g3⟩

/-- C4: getOrCreate with exactly one other identity.  When some
conversation already has non-left memberships for both identities and
exactly two non-left members, the database is unchanged and such a
conversation is returned; otherwise exactly one conversation row and
exactly two membership rows are appended — the initiator `accepted`,
the counterpart `request`. -/
theorem getOrCreate_direct_correct (db : Db) (me other newId ts : String)
    (hneq : me ≠ other) :
    ((∃ cid, activeMember db me cid ∧ activeMember db other cid ∧
        nonLeftCount db cid = 2) →
      (getOrCreate db me [other] newId ts).1 = db
      ∧ ∃ cid, (getOrCreate db me [other] newId ts).2 = cid
          ∧ activeMember db me cid ∧ activeMember db other cid ∧ nonLeftCount db cid = 2)
    ∧ ((¬ ∃ cid, activeMember db me cid ∧ activeMember db other cid ∧
        nonLeftCount db cid = 2) →
      (getOrCreate db me [other] newId ts).1.conversations =
        db.conversations ++ [⟨newId, ts, ts⟩]
      ∧ (getOrCreate db me [other] newId ts).1.members =
        db.members ++ [⟨newId, me, ts, none, 0, "accepted"⟩,
          ⟨newId, other, ts, none, 0, "request"⟩]
      ∧ (getOrCreate db me [other] newId ts).2 = newId) := by
  have hom : (other == me) = false := beq_eq_false_iff_ne.mpr (Ne.symm hneq)
  have hded : dedupFirst [me, other] = [me, other] := by
    simp [dedupFirst, dedupAux, List.contains, List.elem, hom]
  cases hfind : (bothMemberConvos db me other).find? (fun cid => nonLeftCount db cid == 2)
  case none =>
    have hnoex : ¬ ∃ cid, activeMember db me cid ∧ activeMember db other cid ∧
        nonLeftCount db cid = 2 := by
      rintro ⟨cid, h1, h2, h3⟩
      have hmem : cid ∈ bothMemberConvos db me other := mem_bothMemberConvos.mpr ⟨h1, h2⟩
      have := List.find?_eq_none.mp hfind cid hmem
      rw [h3] at this
      exact this rfl
    have hrun : getOrCreate db me [other] newId ts =
        ({ db with
            conversations := db.conversations ++ [⟨newId, ts, ts⟩],
            members := db.members ++ [⟨newId, me, ts, none, 0, "accepted"⟩,
              ⟨newId, other, ts, none, 0, "request"⟩] }, newId) := by
      simp only [getOrCreate, hded, hfind]
      simp [hom]
      exact Ne.symm hneq
    constructor
    · intro hex; exact absurd hex hnoex
    · intro _
      rw [hrun]
      exact ⟨rfl, rfl, rfl⟩
  case some cid =>
    have hmem : cid ∈ bothMemberConvos db me other := List.mem_of_find?_eq_some hfind
    have hcount : nonLeftCount db cid = 2 := by
      have hbeq := List.find?_some hfind
      exact beq_iff_eq.mp hbeq
    have hboth := mem_bothMemberConvos.mp hmem
    have hrun : getOrCreate db me [other] newId ts = (db, cid) := by
      simp only [getOrCreate, hded, hfind]
    constructor
    · intro _
      rw [hrun]
      exact ⟨rfl, cid, rfl, hboth.1, hboth.2, hcount⟩
    · intro hno
      exact absurd ⟨cid, hboth.1, hboth.2, hcount⟩ hno

/-- C4 witness: the theorem applied to the empty database (creation
branch). -/
theorem getOrCreate_direct_witness :
    ("did:a" ≠ "did:b")
    ∧ ((getOrCreate emptyDb "did:a" ["did:b"] "c9" "t9").1.members =
        emptyDb.members ++ [⟨"c9", "did:a", "t9", none, 0, "accepted"⟩,
          ⟨"c9", "did:b", "t9", none, 0, "request"⟩]) := by
  have hno : ¬ ∃ cid, activeMember emptyDb "did:a" cid ∧
      activeMember emptyDb "did:b" cid ∧ nonLeftCount emptyDb cid = 2 := by
    rintro ⟨cid, ⟨m, hm, -⟩, -⟩
    exact absurd hm (List.not_mem_nil m)
  exact ⟨by decide,
    ((getOrCreate_direct_correct emptyDb "did:a" "did:b" "c9" "t9" (by decide)).2 hno).2.1⟩

/-! ## Claim C5: the 5-per-identity reaction cap -/

/-- C5: if no identity holds more than 5 reactions on any message, the
same holds after any addReaction call; and a call by a caller who
already holds 5 reactions on the target message with a value not yet
present is rejected with the database unchanged. -/
theorem reaction_cap_invariant (db : Db) (me convoId messageId value rev ts : String)
    (hinv : ∀ m ∈ db.messages, ∀ d, reactionCount m.reactions d ≤ 5) :
    (∀ m ∈ (addReaction db me convoId messageId value rev ts).1.messages,
        ∀ d, reactionCount m.reactions d ≤ 5)
    ∧ ((∃ w, db.members.find? (fun m =>
          m.conversationId == convoId && m.memberDid == me && m.status != "left") =
            some w) →
      ∀ msg, db.messages.find? (fun m =>
          m.id == messageId && m.conversationId == convoId && m.deletedAt == none) =
            some msg →
        msg.reactions.any (fun r => r.senderDid == me && r.value == value) = false →
        5 ≤ reactionCount msg.reactions me →
        addReaction db me convoId messageId value rev ts =
          (db, ReactionResult.limitExceeded)) := by
  constructor
  · cases hmem : db.members.find? (fun m =>
        m.conversationId == convoId && m.memberDid == me && m.status != "left")
    case none =>
      simpa [addReaction, hmem] using hinv
    case some w =>
      cases hmsg : db.messages.find? (fun m =>
          m.id == messageId && m.conversationId == convoId && m.deletedAt == none)
      case none =>
        simpa [addReaction, hmem, hmsg] using hinv
      case some msg =>
        by_cases hdup :
            msg.reactions.any (fun r => r.senderDid == me && r.value == value) = true
        · simpa [addReaction, hmem, hmsg, hdup] using hinv
        · by_cases hcap : 5 ≤ reactionCount msg.reactions me
          · simpa [addReaction, hmem, hmsg, hdup, hcap] using hinv
          · have hlt : reactionCount msg.reactions me < 5 := Nat.lt_of_not_le hcap
            simp only [addReaction, hmem, hmsg, hdup, Bool.false_eq_true, if_false,
              hcap, if_false]
            intro m hm d
            rw [List.mem_map] at hm
            obtain ⟨m0, hm0, rfl⟩ := hm
            by_cases hid : (m0.id == messageId) = true
            · simp only [hid, if_true]
              rw [reactionCount, List.filter_append, List.length_append]
              by_cases hd : d = me
              · rw [hd]
                have h1 : (List.filter (fun r => r.senderDid == me)
                    [(⟨value, me⟩ : Reaction)]).length = 1 := by simp
                rw [h1]
                rw [reactionCount] at hlt
                omega
              · have hmd : ((⟨value, me⟩ : Reaction).senderDid == d) = false := by
                  simp only [beq_eq_false_iff_ne, ne_eq]
                  exact fun h => hd h.symm
                simp only [List.filter, hmd]
                have := hinv msg (List.mem_of_find?_eq_some hmsg) d
                rw [reactionCount] at this
                simpa using this
            · simp only [hid, Bool.false_eq_true, if_false]
              exact hinv m0 hm0 d
  · rintro ⟨w, hmem⟩ msg hmsg hdup hcap
    simp [addReaction, hmem, hmsg, hdup, hcap]

/-- C5 witness: the theorem applied to a message already carrying five
reactions from the caller. -/
theorem reaction_cap_witness :
    (∀ m ∈ witCapDb.messages, ∀ d, reactionCount m.reactions d ≤ 5)
    ∧ addReaction witCapDb "did:a" "c1" "m1" "e6" "r2" "t2" =
        (witCapDb, ReactionResult.limitExceeded) := by
  have hinv : ∀ m ∈ witCapDb.messages, ∀ d, reactionCount m.reactions d ≤ 5 := by
    intro m hm d
    rw [show witCapDb.messages = [⟨"m1", "c1", "did:b", "hi", "r1", "t1", none,
      [⟨"e1", "did:a"⟩, ⟨"e2", "did:a"⟩, ⟨"e3", "did:a"⟩, ⟨"e4", "did:a"⟩,
       ⟨"e5", "did:a"⟩]⟩] from rfl] at hm
    rw [List.mem_singleton] at hm
    subst hm
    rw [reactionCount]
    exact List.length_filter_le _ _
  refine ⟨hinv, ?_⟩
  exact (reaction_cap_invariant witCapDb "did:a" "c1" "m1" "e6" "r2" "t2" hinv).2
    ⟨⟨"c1", "did:a", "t0", none, 0, "accepted"⟩, rfl⟩ _ rfl (by decide) (by decide)

/-! ## Claim C7: addReaction idempotence -/

/-- C7: after a call that added the (value, caller) reaction or found it
already present, an identical call is a no-op: it returns the state
unchanged with the already-exists outcome, so the reaction list is
unchanged and no further event is appended. -/
theorem addReaction_idempotent (db : Db) (me convoId messageId value rev ts rev₂ ts₂ : String)
    (h : (addReaction db me convoId messageId value rev ts).2 = ReactionResult.added ∨
        (addReaction db me convoId messageId value rev ts).2 = ReactionResult.alreadyExists) :
    addReaction (addReaction db me convoId messageId value rev ts).1
        me convoId messageId value rev₂ ts₂ =
      ((addReaction db me convoId messageId value rev ts).1,
        ReactionResult.alreadyExists) := by
  cases hmem : db.members.find? (fun m =>
      m.conversationId == convoId && m.memberDid == me && m.status != "left")
  case none =>
    rw [show (addReaction db me convoId messageId value rev ts).2 =
      ReactionResult.notMember from by simp [addReaction, hmem]] at h
    rcases h with h | h <;> cases h
  case some w =>
    cases hmsg : db.messages.find? (fun m =>
        m.id == messageId && m.conversationId == convoId && m.deletedAt == none)
    case none =>
      rw [show (addReaction db me convoId messageId value rev ts).2 =
        ReactionResult.msgNotFound from by simp [addReaction, hmem, hmsg]] at h
      rcases h with h | h <;> cases h
    case some msg =>
      by_cases hdup :
          msg.reactions.any (fun r => r.senderDid == me && r.value == value) = true
      · have hrun : addReaction db me convoId messageId value rev ts =
            (db, ReactionResult.alreadyExists) := by
          simp [addReaction, hmem, hmsg, hdup]
        rw [hrun]
        simp [addReaction, hmem, hmsg, hdup]
      · by_cases hcap : 5 ≤ reactionCount msg.reactions me
        · rw [show (addReaction db me convoId messageId value rev ts).2 =
            ReactionResult.limitExceeded from by
              simp [addReaction, hmem, hmsg, hdup, hcap]] at h
          rcases h with h | h <;> cases h
        · have hrun : addReaction db me convoId messageId value rev ts =
              ({ db with
                  messages := db.messages.map (fun m =>
                    if m.id == messageId then
                      { m with reactions := msg.reactions ++ [⟨value, me⟩] }
                    else m),
                  events := db.events ++
                    [⟨convoId, "reaction",
                      EventPayload.addReaction messageId value me, rev, ts⟩] },
                ReactionResult.added) := by
            simp [addReaction, hmem, hmsg, hdup, hcap]
          have hpred : (msg.id == messageId) = true := by
            have := List.find?_some hmsg
            rw [Bool.and_eq_true, Bool.and_eq_true] at this
            exact this.1.1
          have hfind₂ : (db.messages.map (fun m =>
              if m.id == messageId then
                { m with reactions := msg.reactions ++ [⟨value, me⟩] }
              else m)).find? (fun m =>
                m.id == messageId && m.conversationId == convoId && m.deletedAt == none) =
              some { msg with reactions := msg.reactions ++ [⟨value, me⟩] } := by
            rw [List.find?_map]
            have hcomp : ((fun m : MessageRow =>
                m.id == messageId && m.conversationId == convoId && m.deletedAt == none) ∘
                (fun m : MessageRow =>
                  if m.id == messageId then
                    { m with reactions := msg.reactions ++ [⟨value, me⟩] }
                  else m)) =
                (fun m : MessageRow =>
                  m.id == messageId && m.conversationId == convoId &&
                    m.deletedAt == none) := by
              funext m
              by_cases hid : (m.id == messageId) = true <;>
                simp [Function.comp, hid]
            rw [hcomp, hmsg, Option.map_some']
            rw [if_pos hpred]
          rw [hrun]
          simp only [addReaction, hmem, hfind₂]
          rw [if_pos]
          rw [List.any_append]
          simp

/-- C7 witness: a first call that adds a reaction to `witReactDb`, then
the theorem applied to it. -/
theorem addReaction_idempotent_witness :
    ((addReaction witReactDb "did:a" "c1" "m1" "like" "r2" "t2").2 =
        ReactionResult.added ∨
      (addReaction witReactDb "did:a" "c1" "m1" "like" "r2" "t2").2 =
        ReactionResult.alreadyExists)
    ∧ addReaction (addReaction witReactDb "did:a" "c1" "m1" "like" "r2" "t2").1
        "did:a" "c1" "m1" "like" "r3" "t3" =
      ((addReaction witReactDb "did:a" "c1" "m1" "like" "r2" "t2").1,
        ReactionResult.alreadyExists) :=
  ⟨Or.inl (by decide),
    addReaction_idempotent witReactDb "did:a" "c1" "m1" "like" "r2" "t2" "r3" "t3"
      (Or.inl (by decide))⟩

/-! ## Claim C6: message-scoped markRead preserves deliveredAt -/

/-- C6: when message-scoped markRead runs to its upsert (privacy allows,
caller is an active member, the message exists and is not the caller's
own) and the (message, caller) status row already records a delivered
time, the updated row keeps that delivered time and gets `readAt` set to
the current timestamp. -/
theorem markReadMsg_preserves_delivered (db : Db) (me convoId messageId rev ts : String)
    (hpriv : (match db.privacy.find? (fun p => p.did == me) with
        | some p => p.showReadReceipts == 0
        | none => false) = false)
    (w : MemberRow)
    (hmem : db.members.find? (fun m =>
        m.conversationId == convoId && m.memberDid == me && m.status != "left") = some w)
    (msg : MessageRow)
    (hmsg : db.messages.find? (fun m =>
        m.id == messageId && m.conversationId == convoId) = some msg)
    (hsender : (msg.senderDid == me) = false)
    (ex : StatusRow) (d : String)
    (hex : db.statuses.find? (fun s =>
        s.messageId == messageId && s.recipientDid == me) = some ex)
    (hd : ex.deliveredAt = some d) :
    ((markReadMsg db me convoId messageId rev ts).2 = MsgReadResult.ok)
    ∧ ((markReadMsg db me convoId messageId rev ts).1.statuses.find? (fun s =>
        s.messageId == messageId && s.recipientDid == me) =
      some { ex with deliveredAt := some d, readAt := some ts }) := by
  constructor
  · simp [markReadMsg, hpriv, hmem, hmsg, hsender, hex]
  · have hcomp : ((fun s : StatusRow =>
        s.messageId == messageId && s.recipientDid == me) ∘
        (fun s : StatusRow =>
          if s.messageId == messageId && s.recipientDid == me then
            { s with deliveredAt := some (ex.deliveredAt.getD ts), readAt := some ts }
          else s)) =
        (fun s : StatusRow => s.messageId == messageId && s.recipientDid == me) := by
      funext s
      by_cases hs : (s.messageId == messageId && s.recipientDid == me) = true <;>
        simp [Function.comp, hs]
    have hstat : (markReadMsg db me convoId messageId rev ts).1.statuses =
        db.statuses.map (fun s =>
          if s.messageId == messageId && s.recipientDid == me then
            { s with deliveredAt := some (ex.deliveredAt.getD ts), readAt := some ts }
          else s) := by
      simp [markReadMsg, hpriv, hmem, hmsg, hsender, hex]
    rw [hstat, List.find?_map, hcomp, hex, Option.map_some',
      if_pos (List.find?_some hex), hd]
    rfl

/-- C6 witness: the theorem applied to `witStatusDb`, whose status row
records delivered time `t2`. -/
theorem markReadMsg_preserves_delivered_witness :
    (witStatusDb.statuses.find? (fun s =>
        s.messageId == "m1" && s.recipientDid == "did:a") =
      some ⟨"m1", "did:a", some "t2", none⟩)
    ∧ ((markReadMsg witStatusDb "did:a" "c1" "m1" "r9" "t9").2 = MsgReadResult.ok)
    ∧ ((markReadMsg witStatusDb "did:a" "c1" "m1" "r9" "t9").1.statuses.find? (fun s =>
        s.messageId == "m1" && s.recipientDid == "did:a") =
      some ⟨"m1", "did:a", some "t2", some "t9"⟩) := by
  have h := markReadMsg_preserves_delivered witStatusDb "did:a" "c1" "m1" "r9" "t9"
    rfl ⟨"c1", "did:a", "t0", none, 0, "accepted"⟩ (by decide)
    ⟨"m1", "c1", "did:b", "hi", "r1", "t1", none, []⟩ (by decide) (by decide)
    ⟨"m1", "did:a", some "t2", none⟩ "t2" (by decide) rfl
  exact ⟨by decide, h.1, h.2⟩

/-! ## Claim C10: privacy-disabled message-scoped markRead is a no-op -/

/-- C10: a caller whose privacy row disables read receipts gets a
successful response from message-scoped markRead while the database is
left completely unchanged — no status row and no event. -/
theorem markReadMsg_privacy_noop (db : Db) (me convoId messageId rev ts : String)
    (p : PrivacyRow)
    (hp : db.privacy.find? (fun q => q.did == me) = some p)
    (h0 : p.showReadReceipts = 0) :
    markReadMsg db me convoId messageId rev ts = (db, MsgReadResult.privacyDisabled) := by
  simp [markReadMsg, hp, h0]

/-- C10 witness: the theorem applied to `witPrivacyDb`. -/
theorem markReadMsg_privacy_noop_witness :
    (witPrivacyDb.privacy.find? (fun q => q.did == "did:a") =
      some ⟨"did:a", 0, 1, 1⟩)
    ∧ markReadMsg witPrivacyDb "did:a" "c1" "m1" "r9" "t9" =
        (witPrivacyDb, MsgReadResult.privacyDisabled) :=
  ⟨by decide, markReadMsg_privacy_noop witPrivacyDb "did:a" "c1" "m1" "r9" "t9"
    ⟨"did:a", 0, 1, 1⟩ (by decide) rfl⟩

/-! ## Claim C9: reciprocal presence privacy -/

/-- C9: a requester whose own privacy row disables sharing online
status sees every requested identity as offline with null last-seen —
an explicit value independent of every presence row — and, in every
case, a target whose own privacy row disables sharing online status is
reported offline. -/
theorem batchPresence_reciprocal (db : Db) (me : String) (dids : List String)
    (hne : dids ≠ []) :
    (∀ p, db.privacy.find? (fun q => q.did == me) = some p → p.showOnlineStatus = 0 →
        batchPresence db me dids =
          some ((dids.take 100).map (fun did => ⟨did, false, none, true⟩)))
    ∧ (∀ vs, batchPresence db me dids = some vs →
        ∀ t q, db.privacy.find? (fun q₂ => q₂.did == t) = some q →
          q.showOnlineStatus = 0 →
          ∀ v ∈ vs, v.did = t → v.isOnline = false) := by
  have hemp : dids.isEmpty = false := by
    rw [List.isEmpty_eq_false]
    exact hne
  constructor
  · intro p hp h0
    simp [batchPresence, hemp, hp, h0]
  · intro vs hvs t q hq h0 v hv hvd
    rw [batchPresence] at hvs
    simp only [hemp, Bool.false_eq_true, if_false] at hvs
    by_cases hblk : (match db.privacy.find? (fun p => p.did == me) with
        | some p => p.showOnlineStatus == 0
        | none => false) = true
    · rw [if_pos hblk] at hvs
      injection hvs with h
      subst h
      rw [List.mem_map] at hv
      obtain ⟨d0, _, rfl⟩ := hv
      rfl
    · rw [if_neg hblk] at hvs
      injection hvs with h
      subst h
      rw [List.mem_map] at hv
      obtain ⟨d0, _, rfl⟩ := hv
      cases hpres : db.presence.find? (fun p => p.did == d0) with
      | none => simp [hpres]
      | some pr =>
        have hdt : d0 = t := by
          simpa [hpres] using hvd
        subst hdt
        simp [hpres, hq, h0]

/-- C9 witness: `did:a` (own online status hidden) querying `did:b`
(online and fully shared) still sees offline / null. -/
theorem batchPresence_reciprocal_witness :
    (witPresenceDb.privacy.find? (fun q => q.did == "did:a") =
      some ⟨"did:a", 1, 0, 1⟩)
    ∧ batchPresence witPresenceDb "did:a" ["did:b"] =
        some [⟨"did:b", false, none, true⟩] := by
  refine ⟨by decide, ?_⟩
  exact (batchPresence_reciprocal witPresenceDb "did:a" ["did:b"] (by decide)).1
    ⟨"did:a", 1, 0, 1⟩ (by decide) rfl

/-! ## Claim C8: generateRev lexicographic monotonicity -/

theorem digitChar36_lt : ∀ e, e < 36 → ∀ d, d < e →
    (digitChar36 d).toNat < (digitChar36 e).toNat := by
  decide

theorem charsLt_single {a b : Char} (h : a.toNat < b.toNat) :
    charsLt [a] [b] = true := by
  simp [charsLt, h]

theorem charsLt_append_of_lt (s₁ s₂ : List Char) : ∀ {l₁ l₂ : List Char},
    l₁.length = l₂.length → charsLt l₁ l₂ = true →
    charsLt (l₁ ++ s₁) (l₂ ++ s₂) = true
  | [], [], _, h => by simp [charsLt] at h
  | [], _ :: _, hlen, _ => by simp at hlen
  | _ :: _, [], hlen, _ => by simp at hlen
  | a :: as, b :: bs, hlen, h => by
    simp only [List.length_cons] at hlen
    by_cases hab : a.toNat < b.toNat
    · simp [charsLt, hab]
    · by_cases hba : b.toNat < a.toNat
      · simp [charsLt, hab, hba] at h
      · simp only [charsLt, hab, hba, if_false] at h
        simp only [List.cons_append, charsLt, hab, hba, if_false]
        exact charsLt_append_of_lt s₁ s₂ (by omega) h

theorem charsLt_append_left (L : List Char) {m₁ m₂ : List Char} :
    charsLt (L ++ m₁) (L ++ m₂) = charsLt m₁ m₂ := by
  induction L with
  | nil => rfl
  | cons a L ih => simp [charsLt, Nat.lt_irrefl, ih]

theorem toBase36Go_fuel : ∀ (n : Nat) {f₁ f₂ : Nat}, n < f₁ → n < f₂ →
    toBase36Go f₁ n = toBase36Go f₂ n := by
  intro n
  induction n using Nat.strong_induction_on with
  | _ n ih =>
    intro f₁ f₂ h₁ h₂
    cases f₁ with
    | zero => exact absurd h₁ (Nat.not_lt_zero n)
    | succ g₁ =>
      cases f₂ with
      | zero => exact absurd h₂ (Nat.not_lt_zero n)
      | succ g₂ =>
        simp only [toBase36Go]
        by_cases h36 : n < 36
        · simp [h36]
        · simp only [h36, if_false]
          have hdiv : n / 36 < n := Nat.div_lt_self (by omega) (by omega)
          have h₁' : n / 36 < g₁ := by omega
          have h₂' : n / 36 < g₂ := by omega
          rw [ih (n / 36) hdiv h₁' h₂']

theorem toBase36_eq (n : Nat) :
    toBase36 n = if n < 36 then [digitChar36 n]
      else toBase36 (n / 36) ++ [digitChar36 (n % 36)] := by
  by_cases h : n < 36
  · rw [if_pos h, toBase36]
    simp only [toBase36Go, h, if_true]
  · rw [if_neg h]
    have hstep : toBase36Go (n + 1) n = toBase36Go n (n / 36) ++ [digitChar36 (n % 36)] := by
      simp only [toBase36Go, h, if_false]
    rw [toBase36, hstep, toBase36]
    have h1 : n / 36 < n := Nat.div_lt_self (by omega) (by omega)
    exact congrArg (· ++ [digitChar36 (n % 36)])
      (toBase36Go_fuel (n / 36) h1 (Nat.lt_succ_self _))

theorem toBase36_length_pos (n : Nat) : 0 < (toBase36 n).length := by
  rw [toBase36_eq]
  by_cases h : n < 36 <;> simp [h]

theorem toBase36_lt : ∀ n₂ n₁ : Nat, n₁ < n₂ →
    (toBase36 n₁).length = (toBase36 n₂).length →
    charsLt (toBase36 n₁) (toBase36 n₂) = true := by
  intro n₂
  induction n₂ using Nat.strong_induction_on with
  | _ n₂ ih =>
    intro n₁ hlt hlen
    by_cases h₂ : n₂ < 36
    · have h₁ : n₁ < 36 := Nat.lt_trans hlt h₂
      rw [toBase36_eq n₁, toBase36_eq n₂, if_pos h₁, if_pos h₂]
      exact charsLt_single (digitChar36_lt n₂ h₂ n₁ hlt)
    · by_cases h₁ : n₁ < 36
      · exfalso
        rw [toBase36_eq n₁, if_pos h₁, toBase36_eq n₂, if_neg h₂] at hlen
        rw [List.length_append] at hlen
        have hp := toBase36_length_pos (n₂ / 36)
        rw [List.length_cons, List.length_cons, List.length_nil] at hlen
        omega
      · rw [toBase36_eq n₁, if_neg h₁, toBase36_eq n₂, if_neg h₂] at hlen ⊢
        have hlen' : (toBase36 (n₁ / 36)).length = (toBase36 (n₂ / 36)).length := by
          simp only [List.length_append, List.length_singleton] at hlen
          omega
        have hqle : n₁ / 36 ≤ n₂ / 36 := Nat.div_le_div_right (Nat.le_of_lt hlt)
        rcases Nat.lt_or_eq_of_le hqle with hq | hq
        · exact charsLt_append_of_lt _ _ hlen'
            (ih (n₂ / 36) (Nat.div_lt_self (by omega) (by omega)) (n₁ / 36) hq hlen')
        · rw [hq, charsLt_append_left]
          have hr : n₁ % 36 < n₂ % 36 := by
            have e₁ := Nat.div_add_mod n₁ 36
            have e₂ := Nat.div_add_mod n₂ 36
            omega
          exact charsLt_single
            (digitChar36_lt (n₂ % 36) (Nat.mod_lt _ (by omega)) (n₁ % 36) hr)

/-- C8 counterexample: at the base-36 length boundary — millisecond
timestamps 36^8 − 1 and 36^8, the clock crossing May 2059 — the later
token is lexicographically strictly below the earlier one, so the
claimed monotonicity over all clock pairs fails. -/
theorem generateRev_lex_cex :
    (36 ^ 8 - 1 < 36 ^ 8)
    ∧ charsLt (generateRev (36 ^ 8) 0) (generateRev (36 ^ 8 - 1) 0) = true := by
  exact ⟨by norm_num, by decide⟩

/-- C8 (amended): whenever the two millisecond timestamps have base-36
encodings of equal length — true for all real clock values from 1972
through May 2059 — the earlier `generateRev` token is lexicographically
strictly below the later one, whatever the random suffixes. -/
theorem generateRev_lex_monotone_eqlen (ts₁ ts₂ r₁ r₂ : Nat)
    (hlt : ts₁ < ts₂)
    (hlen : (toBase36 ts₁).length = (toBase36 ts₂).length) :
    charsLt (generateRev ts₁ r₁) (generateRev ts₂ r₂) = true :=
  charsLt_append_of_lt _ _ hlen (toBase36_lt ts₂ ts₁ hlt hlen)

/-- C8 witness: the amended theorem applied to timestamps 100 and 101
with extremal random suffixes. -/
theorem generateRev_lex_witness :
    (100 < 101 ∧ (toBase36 100).length = (toBase36 101).length)
    ∧ charsLt (generateRev 100 4294967295) (generateRev 101 0) = true :=
  ⟨⟨by norm_num, by decide⟩,
    generateRev_lex_monotone_eqlen 100 101 4294967295 0 (by norm_num) (by decide)⟩

end Raceef
